import Mathlib

/-!
Verification of the whatsapp-categorizer API core (`api/categorize.ts`).

The file shallowly embeds the handler's batch shaping, row construction and
final-response logic, and the `callMCP` correlated RPC client as an explicit
event/state machine, then proves or refutes the specified properties.
-/

/-- A JSON-like runtime value, as manipulated by the untyped message fields
(`msg.assignments`, `msg.categories`, `msg.coverage`). Numbers are modelled
as rationals. -/
inductive JVal where
  | null
  | bool (b : Bool)
  | num (q : ℚ)
  | str (s : String)
  | arr (xs : List JVal)
deriving Repr

/-- JavaScript truthiness for the values of `JVal` we model: `null` and
`undefined` are falsy, `false` is falsy, `0` is falsy, the empty string is
falsy, and every array (even empty) is truthy. Used by `category:
assignments?.[i] || "Other"`. -/
def JVal.truthy : JVal → Bool
  | .null => false
  | .bool b => b
  | .num q => q ≠ 0
  | .str s => s ≠ ""
  | .arr _ => true

/-- Array indexing with optional chaining: `a?.[i]` yields `undefined`
(here `none`) when the value is not an array or the index is out of range. -/
def JVal.index : JVal → Nat → Option JVal
  | .arr xs, i => xs.get? i
  | _, _ => none

/-- One row of the `urls_filtered` select:
`select("id, raw_text, url, matched_keywords")`. -/
structure FilteredRecord where
  id : String
  raw_text : String
  url : Option String
  matched_keywords : List String
deriving Repr, DecidableEq

/-- `const WS_TIMEOUT_MS = 30_000` -/
def WS_TIMEOUT_MS : Nat := 30000

/-- `const MAX_ITEMS = 500` -/
def MAX_ITEMS : Nat := 500

/-- One wire item of the request envelope:
`{ i, text: r.raw_text, url: r.url, keywords: r.matched_keywords }`. -/
structure WireItem where
  i : Nat
  text : String
  url : Option String
  keywords : List String
deriving Repr, DecidableEq

/-- Projection of one record at capped index `i` into its wire item. -/
def toWireItem (i : Nat) (r : FilteredRecord) : WireItem :=
  { i := i, text := r.raw_text, url := r.url, keywords := r.matched_keywords }

/-- `list.slice(0, cap).map((r, i) => ({ i, text: r.raw_text, url: r.url,
keywords: r.matched_keywords }))` — the batch preparer, with the slice bound
as a parameter; the handler instantiates it at `MAX_ITEMS`. -/
def mkItems (cap : Nat) (list : List FilteredRecord) : List WireItem :=
  (list.take cap).enum.map (fun p => toWireItem p.1 p.2)

/-- The items actually sent by the handler:
`list.slice(0, MAX_ITEMS).map(...)`. -/
def handlerItems (list : List FilteredRecord) : List WireItem :=
  mkItems MAX_ITEMS list

/-!
## The correlated RPC client `callMCP`

`callMCP` is a Promise executor that creates a WebSocket, starts a timeout
timer, and installs four event handlers (`open`, `message`, `error`,
`close`). We embed it as a state machine: `initState` is the state after the
executor body has run synchronously (id generated, socket constructed,
`settled = false`, timer armed), and `step` is the handlers' reaction to one
event. The promise's settle-once semantics is `settleOnce`.
-/

/-- A successfully parsed inbound frame
(`{id, ok, assignments?, categories?, coverage?, error?}`); `none` in a
field means the field is absent. -/
structure RawMsg where
  id : String
  ok : Bool
  assignments : Option JVal
  categories : Option JVal
  coverage : Option JVal
  error : Option String
deriving Repr

/-- The normalized value `callMCP` resolves with; the fields stay untyped
(`JVal`) because the handler re-inspects them
(`typeof coverage === "number"`, `Array.isArray(categories)`). -/
structure McpResolved where
  assignments : JVal
  categories : JVal
  coverage : JVal
deriving Repr

/-- The normalization performed in the message handler on a matching frame
with `msg.ok` true:
`assignments = Array.isArray(msg.assignments) ? msg.assignments : []`,
`categories = Array.isArray(msg.categories) ? msg.categories : []`,
`coverage = typeof msg.coverage === "number" ? msg.coverage : 1`. -/
def normalizeMsg (msg : RawMsg) : McpResolved :=
  { assignments := match msg.assignments with
      | some (.arr xs) => .arr xs
      | _ => .arr []
  , categories := match msg.categories with
      | some (.arr xs) => .arr xs
      | _ => .arr []
  , coverage := match msg.coverage with
      | some (.num q) => .num q
      | _ => .num 1 }

/-- `msg.error || "mcp_tool_error"`: the remote-supplied message unless it
is absent or empty (falsy). -/
def toolErrText (e : Option String) : String :=
  match e with
  | some s => if s = "" then "mcp_tool_error" else s
  | none => "mcp_tool_error"

/-- The failure outcomes of `callMCP`: `new Error("mcp_timeout")`, the
tool-reported error, the transport error object, `new Error("mcp_closed")`. -/
inductive CallErr where
  | timeout
  | tool (msg : String)
  | transport (e : String)
  | closed
deriving Repr, DecidableEq

/-- The observable state of one `callMCP` invocation. `settled` is the
`let settled = false` flag; `timerPending` records whether the `setTimeout`
timer is still armed (armed at creation, disarmed by `clearTimeout` or by
firing); `sent` records whether `ws.send(JSON.stringify({id, tool, items}))`
has run; `closeCalls` counts the client's `ws.close()` attempts; `outcome`
is the promise's settlement, set at most once. -/
structure CallState where
  settled : Bool
  timerPending : Bool
  sent : Bool
  closeCalls : Nat
  outcome : Option (Except CallErr McpResolved)
deriving Repr

/-- Promise settle-once semantics: `resolve`/`reject` after the first
settlement do not change the observed outcome. -/
def settleOnce (o : Option (Except CallErr McpResolved))
    (v : Except CallErr McpResolved) : Option (Except CallErr McpResolved) :=
  match o with
  | some w => some w
  | none => some v

/-- The state right after the executor body of the promise ran
synchronously: id generated, socket constructed, `settled = false`, and the
timer armed by `const timer = setTimeout(...)` — before any event (in
particular before `open` and hence before the envelope is sent). -/
def initState : CallState :=
  { settled := false, timerPending := true, sent := false, closeCalls := 0,
    outcome := none }

/-- The events a call reacts to: the `open` handler, the timer firing, one
inbound frame (`none` models a frame `JSON.parse` throws on), the `error`
handler, the `close` handler. -/
inductive WsEvent where
  | connOpen
  | timerFire
  | message (frame : Option RawMsg)
  | connError (e : String)
  | connClose
deriving Repr

/-- One event handler reaction of `callMCP`, with `reqId` the correlation id
generated for this call. Transcribed handler by handler:
`open` runs `ws.send(...)`; the timer callback checks `settled`, closes and
rejects with the timeout error; the `message` handler ignores unparsable
frames and frames whose `id` differs, and otherwise (without checking
`settled`) clears the timer, sets `settled`, resolves the normalized result
or rejects the tool error, and calls `ws.close()`; the `error` and `close`
handlers check `settled`, clear the timer and reject. -/
def step (reqId : String) (s : CallState) (e : WsEvent) : CallState :=
  match e with
  | .connOpen => { s with sent := true }
  | .timerFire =>
      if s.timerPending = false then s
      else if s.settled then { s with timerPending := false }
      else { s with timerPending := false, settled := true,
                    closeCalls := s.closeCalls + 1,
                    outcome := settleOnce s.outcome (.error .timeout) }
  | .message none => s
  | .message (some msg) =>
      if msg.id ≠ reqId then s
      else if msg.ok then
        { s with timerPending := false, settled := true,
                 closeCalls := s.closeCalls + 1,
                 outcome := settleOnce s.outcome (.ok (normalizeMsg msg)) }
      else
        { s with timerPending := false, settled := true,
                 closeCalls := s.closeCalls + 1,
                 outcome := settleOnce s.outcome (.error (.tool (toolErrText msg.error))) }
  | .connError e =>
      if s.settled then s
      else { s with timerPending := false, settled := true,
                    outcome := settleOnce s.outcome (.error (.transport e)) }
  | .connClose =>
      if s.settled then s
      else { s with timerPending := false, settled := true,
                    outcome := settleOnce s.outcome (.error .closed) }

/-- A whole call: fold the event trace from the post-executor state. -/
def run (reqId : String) (tr : List WsEvent) : CallState :=
  tr.foldl (step reqId) initState

/-!
## The handler's row construction and final response

We embed the handler body from `const list = filtered ?? []` onward, on the
success path, as a function of the fetched list and of the value `callMCP`
resolved with. Whether `callMCP` was invoked at all (and hence whether a
WebSocket connection was opened) is recorded in the outcome.
-/

/-- One row inserted into `urls_processed`:
`{ filtered_id: r.id, category: assignments?.[i] || "Other",
confidence: 0.9 }`. -/
structure Row where
  filtered_id : String
  category : JVal
  confidence : ℚ
deriving Repr

/-- The JSON body of the handler's success response:
`{ ok, upload_id, processed, coverage: number|null, categories }`
(we drop the echoed `upload_id`, which is pass-through). -/
structure ApiResponse where
  ok : Bool
  processed : Nat
  coverage : Option ℚ
  categories : List JVal
deriving Repr

/-- What one successful handler invocation did: the response body, the rows
given to the insert, and whether `callMCP` ran (equivalently, whether a
WebSocket connection was opened — `callMCP` opens exactly one). -/
structure HandlerOutcome where
  response : ApiResponse
  insertedRows : List Row
  mcpCalled : Bool
deriving Repr

/-- `category: assignments?.[i] || "Other"` — the indexed assignment when it
is present and truthy, else the sentinel. -/
def rowCategory (assignments : JVal) (i : Nat) : JVal :=
  match assignments.index i with
  | some v => if v.truthy then v else .str "Other"
  | none => .str "Other"

/-- `const rows = list.map((r, i) => ({ filtered_id: r.id,
category: assignments?.[i] || "Other", confidence: 0.9 }))` — note the map
is over the full `list`, not over the capped slice. -/
def mkRows (list : List FilteredRecord) (assignments : JVal) : List Row :=
  list.enum.map (fun p =>
    { filtered_id := p.2.id
    , category := rowCategory assignments p.1
    , confidence := 9 / 10 })

/-- The handler body from `const list = filtered ?? []` on, on the path
where the store read succeeded and, when it runs, `callMCP` resolves with
`mcp`: the empty-list short-circuit
`{ ok: true, processed: 0, coverage: 1, categories: [] }`, else rows built
from the resolved assignments and the final response
`{ ok: true, processed: rows.length,
coverage: typeof coverage === "number" ? coverage : null,
categories: Array.isArray(categories) ? categories : [] }`. -/
def processUpload (list : List FilteredRecord) (mcp : McpResolved) :
    HandlerOutcome :=
  if list.length = 0 then
    { response := { ok := true, processed := 0, coverage := some 1, categories := [] }
    , insertedRows := []
    , mcpCalled := false }
  else
    let rows := mkRows list mcp.assignments
    { response :=
        { ok := true
        , processed := rows.length
        , coverage := match mcp.coverage with
            | .num q => some q
            | _ => none
        , categories := match mcp.categories with
            | .arr xs => xs
            | _ => [] }
    , insertedRows := rows
    , mcpCalled := true }

/-- The structural invariant of `callMCP`'s state: a settled call has no
pending timer, the `settled` flag rises exactly with the promise settling,
and the timer is only ever disarmed as part of settling. -/
def CallInv (s : CallState) : Prop :=
  (s.settled = true → s.timerPending = false) ∧
  (s.settled = true ↔ s.outcome.isSome = true) ∧
  (s.timerPending = false → s.outcome.isSome = true)

/-!
## Sample data used by witnesses and counterexamples
-/

def recA : FilteredRecord :=
  { id := "ra", raw_text := "hola", url := some "http://a", matched_keywords := ["k1"] }

def recB : FilteredRecord :=
  { id := "rb", raw_text := "adios", url := none, matched_keywords := [] }

def recC : FilteredRecord :=
  { id := "rc", raw_text := "texto", url := some "http://c", matched_keywords := ["k2", "k3"] }

def mcpTrivial : McpResolved :=
  { assignments := .arr [], categories := .arr [], coverage := .num 1 }

/-- 501 identical candidates: one more than `MAX_ITEMS`. -/
def longList : List FilteredRecord := List.replicate 501 recA

def msgOkEmpty : RawMsg :=
  { id := "w3", ok := true, assignments := none, categories := none,
    coverage := none, error := none }

def msgLate : RawMsg :=
  { id := "c2", ok := true, assignments := none, categories := none,
    coverage := none, error := none }

def msgWrongId : RawMsg :=
  { id := "zz", ok := true, assignments := none, categories := none,
    coverage := none, error := none }

def msgC6 : RawMsg :=
  { id := "w6", ok := true, assignments := some (.str "noarray"),
    categories := none, coverage := some (.num (4 / 5)), error := none }

def msgOk10 : RawMsg :=
  { id := "w10", ok := true, assignments := some (.arr [.str "A"]),
    categories := none, coverage := none, error := none }

def mcpAB : McpResolved :=
  { assignments := .arr [.str "A", .str ""], categories := .arr [],
    coverage := .num (4 / 5) }

theorem mkItems_length (cap : Nat) (list : List FilteredRecord) :
    (mkItems cap list).length = min list.length cap := by
  simp [mkItems, Nat.min_comm]

theorem mkItems_positions (cap : Nat) (list : List FilteredRecord) :
    (mkItems cap list).map (fun it => it.i) = List.range (min list.length cap) := by
  have hfun : ((fun it : WireItem => it.i) ∘ fun p : Nat × FilteredRecord =>
      toWireItem p.1 p.2) = Prod.fst := rfl
  rw [mkItems, List.map_map, hfun, List.enum_map_fst, List.length_take, Nat.min_comm]

theorem mkItems_get? (cap : Nat) (list : List FilteredRecord) (k : Nat)
    (hk : k < cap) :
    (mkItems cap list).get? k = (list.get? k).map (toWireItem k) := by
  have hfun : ((fun p : Nat × FilteredRecord => toWireItem p.1 p.2) ∘ fun a =>
      (k, a)) = toWireItem k := rfl
  simp only [mkItems, List.get?_eq_getElem?, List.getElem?_map, List.getElem?_enum,
    Option.map_map, hfun]
  rw [List.getElem?_take_of_lt hk]

theorem mkRows_length (list : List FilteredRecord) (assignments : JVal) :
    (mkRows list assignments).length = list.length := by
  simp [mkRows]

theorem mkRows_get? (list : List FilteredRecord) (assignments : JVal)
    (k : Nat) :
    (mkRows list assignments).get? k =
      (list.get? k).map (fun r =>
        { filtered_id := r.id
        , category := rowCategory assignments k
        , confidence := 9 / 10 }) := by
  have hfun : ((fun p : Nat × FilteredRecord =>
      ({ filtered_id := p.2.id, category := rowCategory assignments p.1,
         confidence := 9 / 10 } : Row)) ∘ fun a => (k, a))
      = fun r : FilteredRecord =>
        ({ filtered_id := r.id, category := rowCategory assignments k,
           confidence := 9 / 10 } : Row) := rfl
  simp only [mkRows, List.get?_eq_getElem?, List.getElem?_map, List.getElem?_enum,
    Option.map_map, hfun]

/-!
## Invariants of the call state machine
-/

theorem settleOnce_some (w v : Except CallErr McpResolved) :
    settleOnce (some w) v = some w := rfl

theorem settleOnce_none (v : Except CallErr McpResolved) :
    settleOnce none v = some v := rfl

/-- Once the promise holds a value, no handler ever replaces it. -/
theorem step_outcome_mono (reqId : String) (s : CallState) (e : WsEvent)
    (v : Except CallErr McpResolved) (hv : s.outcome = some v) :
    (step reqId s e).outcome = some v := by
  cases e with
  | connOpen => exact hv
  | timerFire =>
      simp only [step]
      split
      · exact hv
      · split
        · exact hv
        · simp [settleOnce, hv]
  | message frame =>
      cases frame with
      | none => exact hv
      | some msg =>
          simp only [step]
          split
          · exact hv
          · split <;> simp [settleOnce, hv]
  | connError e =>
      simp only [step]
      split
      · exact hv
      · simp [settleOnce, hv]
  | connClose =>
      simp only [step]
      split
      · exact hv
      · simp [settleOnce, hv]

/-- Invariant propagation along a trace, for any per-step-preserved
property. -/
theorem foldl_inv {P : CallState → Prop} (reqId : String)
    (hstep : ∀ s e, P s → P (step reqId s e)) :
    ∀ (tr : List WsEvent) (s : CallState), P s → P (tr.foldl (step reqId) s) := by
  intro tr
  induction tr with
  | nil => intro s hs; exact hs
  | cons e tl ih => intro s hs; exact ih _ (hstep s e hs)

theorem callInv_init : CallInv initState := by
  refine ⟨?_, ?_, ?_⟩ <;> simp [initState]

theorem callInv_step (reqId : String) (s : CallState) (e : WsEvent)
    (h : CallInv s) : CallInv (step reqId s e) := by
  obtain ⟨h1, h2, h3⟩ := h
  cases e with
  | connOpen => exact ⟨h1, h2, h3⟩
  | timerFire =>
      simp only [step]
      split
      · exact ⟨h1, h2, h3⟩
      · split
        · refine ⟨fun _ => rfl, ?_, ?_⟩
          · simpa using h2
          · intro _; simpa using h2.mp (by assumption)
        · refine ⟨fun _ => rfl, ?_, fun _ => ?_⟩ <;>
            cases ho : s.outcome <;> simp [settleOnce, ho]
  | message frame =>
      cases frame with
      | none => exact ⟨h1, h2, h3⟩
      | some msg =>
          simp only [step]
          split
          · exact ⟨h1, h2, h3⟩
          · split <;>
              (refine ⟨fun _ => rfl, ?_, fun _ => ?_⟩ <;>
                cases ho : s.outcome <;> simp [settleOnce, ho])
  | connError e =>
      simp only [step]
      split
      · exact ⟨h1, h2, h3⟩
      · refine ⟨fun _ => rfl, ?_, fun _ => ?_⟩ <;>
          cases ho : s.outcome <;> simp [settleOnce, ho]
  | connClose =>
      simp only [step]
      split
      · exact ⟨h1, h2, h3⟩
      · refine ⟨fun _ => rfl, ?_, fun _ => ?_⟩ <;>
          cases ho : s.outcome <;> simp [settleOnce, ho]

theorem callInv_run (reqId : String) (tr : List WsEvent) :
    CallInv (run reqId tr) :=
  foldl_inv reqId (callInv_step reqId) tr initState callInv_init

/-- `isSome` outcomes persist along a trace. -/
theorem step_isSome_mono (reqId : String) (s : CallState) (e : WsEvent)
    (h : s.outcome.isSome = true) : (step reqId s e).outcome.isSome = true := by
  rcases ho : s.outcome with _ | v
  · rw [ho] at h; cases h
  · rw [step_outcome_mono reqId s e v ho]; rfl

/-!
## The claims
-/

/-- Claim C8: for every batch cap M and candidate list, the batch preparer
emits exactly min(N, M) wire items, whose positions are the contiguous
integers 0 .. min(N, M) - 1 in order, and the item at index k is derived
from the record at index k of the input list. -/
theorem preparer_emits_capped_items (cap : Nat) (list : List FilteredRecord) :
    (mkItems cap list).length = min list.length cap ∧
    (mkItems cap list).map (fun it => it.i) = List.range (min list.length cap) ∧
    ∀ k, k < min list.length cap →
      (mkItems cap list).get? k = (list.get? k).map (toWireItem k) :=
  ⟨mkItems_length cap list, mkItems_positions cap list,
   fun k hk => mkItems_get? cap list k (lt_of_lt_of_le hk (Nat.min_le_right _ _))⟩

theorem preparer_emits_capped_items_witness :
    (mkItems 2 [recA, recB, recC]).length = min ([recA, recB, recC] : List _).length 2 ∧
    (mkItems 2 [recA, recB, recC]).get? 1 =
      (([recA, recB, recC] : List _).get? 1).map (toWireItem 1) := by
  have h := preparer_emits_capped_items 2 [recA, recB, recC]
  exact ⟨h.1, h.2.2 1 (by decide)⟩

/-- Claim C9: with an empty candidate list the handler short-circuits with
the trivial success `{processed: 0, coverage: 1, categories: []}`, writes no
rows and never invokes `callMCP` (so no connection is opened). -/
theorem empty_batch_short_circuit (mcp : McpResolved) :
    processUpload [] mcp =
      { response := { ok := true, processed := 0, coverage := some 1, categories := [] }
      , insertedRows := []
      , mcpCalled := false } := rfl

/-- Claim C5 counterexample: in the state produced by the promise executor
the timeout timer is already armed while the envelope has not been sent —
the timer starts at WebSocket-creation time; the send only happens later, in
the open handler, which leaves the timer untouched. -/
theorem timer_armed_before_send :
    initState.timerPending = true ∧ initState.sent = false ∧
    (step "c5" initState .connOpen).sent = true ∧
    (step "c5" initState .connOpen).timerPending = true :=
  ⟨rfl, rfl, rfl, rfl⟩

/-- Claim C5 amended: the deadline timer is started when the call is set up
(at WebSocket-creation time, before the connection opens and before any
send); the open event then performs the send and changes nothing else. -/
theorem timer_starts_at_creation (reqId : String) (s : CallState) :
    initState.timerPending = true ∧ initState.sent = false ∧
    step reqId s .connOpen = { s with sent := true } :=
  ⟨rfl, rfl, rfl⟩

/-- Claim C3 counterexample: the transport-error settlement path rejects the
call without any client close attempt. -/
theorem error_path_settles_without_close :
    (run "c3" [.connError "boom"]).settled = true ∧
    (run "c3" [.connError "boom"]).outcome = some (.error (.transport "boom")) ∧
    (run "c3" [.connError "boom"]).closeCalls = 0 :=
  ⟨rfl, rfl, rfl⟩

/-- Claim C3 amended: the client attempts `ws.close()` on the
matching-response and timeout settlement paths, but the transport-error and
premature-close handlers settle without issuing any close call. -/
theorem close_attempted_only_on_match_and_timeout (reqId : String)
    (s : CallState) (msg : RawMsg) (hid : msg.id = reqId) (e : String)
    (hset : s.settled = false) (htp : s.timerPending = true) :
    (step reqId s (.message (some msg))).closeCalls = s.closeCalls + 1 ∧
    (step reqId s .timerFire).closeCalls = s.closeCalls + 1 ∧
    (step reqId s (.connError e)).closeCalls = s.closeCalls ∧
    (step reqId s .connClose).closeCalls = s.closeCalls := by
  refine ⟨?_, ?_, ?_, ?_⟩
  · simp only [step, hid]
    split
    · simp_all
    · split <;> rfl
  · simp only [step, htp, hset]
    split
    · simp_all
    · split
      · simp_all
      · rfl
  · simp only [step, hset]
    split
    · simp_all
    · rfl
  · simp only [step, hset]
    split
    · simp_all
    · rfl

theorem close_attempted_only_on_match_and_timeout_witness :
    (step "w3" initState (.message (some msgOkEmpty))).closeCalls = initState.closeCalls + 1 ∧
    (step "w3" initState .timerFire).closeCalls = initState.closeCalls + 1 ∧
    (step "w3" initState (.connError "x")).closeCalls = initState.closeCalls ∧
    (step "w3" initState .connClose).closeCalls = initState.closeCalls :=
  close_attempted_only_on_match_and_timeout "w3" initState msgOkEmpty rfl "x" rfl rfl

/-- Claim C2 counterexample: after the timeout has settled the call, a late
matching message is still acted upon — the message handler never consults
the settled flag, so it performs another close attempt (and re-runs the
settlement logic) — even though the observed promise outcome stays the
timeout error. -/
theorem late_matching_message_still_acts :
    (run "c2" [.timerFire]).settled = true ∧
    (run "c2" [.timerFire]).closeCalls = 1 ∧
    (run "c2" [.timerFire, .message (some msgLate)]).closeCalls = 2 ∧
    (run "c2" [.timerFire, .message (some msgLate)]).outcome = some (.error .timeout) :=
  ⟨rfl, rfl, rfl, rfl⟩

/-- Claim C2 amended: the settled flag is checked before acting in the
timer, transport-error and close handlers — after settlement those events
leave the state entirely unchanged — and the observed promise outcome is
set at most once: no event whatsoever can replace it. The message handler,
however, filters only on the correlation id, not on the flag. -/
theorem settled_guard_and_outcome_stability (reqId : String)
    (tr : List WsEvent) (hs : (run reqId tr).settled = true) :
    (∀ e v, (run reqId tr).outcome = some v →
      (run reqId (tr ++ [e])).outcome = some v) ∧
    step reqId (run reqId tr) .timerFire = run reqId tr ∧
    (∀ e, step reqId (run reqId tr) (.connError e) = run reqId tr) ∧
    step reqId (run reqId tr) .connClose = run reqId tr := by
  have hinv := callInv_run reqId tr
  have htp : (run reqId tr).timerPending = false := hinv.1 hs
  refine ⟨?_, ?_, ?_, ?_⟩
  · intro e v hv
    have happ : run reqId (tr ++ [e]) = step reqId (run reqId tr) e := by
      simp [run, List.foldl_append]
    rw [happ]
    exact step_outcome_mono reqId _ e v hv
  · simp [step, htp]
  · intro e; simp [step, hs]
  · simp [step, hs]

theorem settled_guard_and_outcome_stability_witness :
    (run "w2" [.timerFire]).settled = true ∧
    (run "w2" ([.timerFire] ++ [.connClose])).outcome = some (.error .timeout) ∧
    step "w2" (run "w2" [.timerFire]) .connClose = run "w2" [.timerFire] := by
  have h := settled_guard_and_outcome_stability "w2" [.timerFire] rfl
  exact ⟨rfl, h.1 .connClose (.error .timeout) rfl, h.2.2.2⟩

/-- On a trace with no matching message and no transport error, the outcome
can only ever be empty, the timeout error, or the closed error. -/
theorem run_no_match_outcomes (reqId : String) :
    ∀ (tr : List WsEvent) (s : CallState),
      (∀ msg, WsEvent.message (some msg) ∈ tr → ¬ msg.id = reqId) →
      (∀ e, WsEvent.connError e ∉ tr) →
      (s.outcome = none ∨ s.outcome = some (.error .timeout) ∨
        s.outcome = some (.error .closed)) →
      ((tr.foldl (step reqId) s).outcome = none ∨
       (tr.foldl (step reqId) s).outcome = some (.error .timeout) ∨
       (tr.foldl (step reqId) s).outcome = some (.error .closed)) := by
  intro tr
  induction tr with
  | nil => intro s _ _ hP; exact hP
  | cons e tl ih =>
      intro s hmatch herr hP
      refine ih _ (fun m hm => hmatch m (List.mem_cons_of_mem _ hm))
        (fun x => fun hx => herr x (List.mem_cons_of_mem _ hx)) ?_
      cases e with
      | connOpen => exact hP
      | timerFire =>
          simp only [step]
          split
          · exact hP
          · split
            · exact hP
            · rcases hP with h | h | h <;> simp [h, settleOnce]
      | message frame =>
          cases frame with
          | none => exact hP
          | some msg =>
              simp only [step]
              split
              · exact hP
              · exact absurd (not_not.mp (by assumption))
                  (hmatch msg (List.mem_cons_self _ _))
      | connError x => exact absurd (List.mem_cons_self _ _) (herr x)
      | connClose =>
          simp only [step]
          split
          · exact hP
          · rcases hP with h | h | h <;> simp [h, settleOnce]

/-- Once the trace contains a timer expiry or a connection close, the call
is settled at its end. -/
theorem run_trigger_settles (reqId : String) :
    ∀ (tr : List WsEvent) (s : CallState),
      CallInv s →
      (WsEvent.timerFire ∈ tr ∨ WsEvent.connClose ∈ tr) →
      (tr.foldl (step reqId) s).outcome.isSome = true := by
  intro tr
  induction tr with
  | nil => intro s _ h; rcases h with h | h <;> simp at h
  | cons e tl ih =>
      intro s hinv hmem
      by_cases htl : WsEvent.timerFire ∈ tl ∨ WsEvent.connClose ∈ tl
      · exact ih _ (callInv_step reqId s e hinv) htl
      · have he : e = WsEvent.timerFire ∨ e = WsEvent.connClose := by
          rcases hmem with h | h <;> rcases List.mem_cons.mp h with h2 | h2
          · exact Or.inl h2.symm
          · exact absurd (Or.inl h2) htl
          · exact Or.inr h2.symm
          · exact absurd (Or.inr h2) htl
        have hsome : (step reqId s e).outcome.isSome = true := by
          rcases he with rfl | rfl
          · simp only [step]
            split
            · exact hinv.2.2 (by assumption)
            · split
              · exact hinv.2.1.mp (by assumption)
              · cases ho : s.outcome <;> simp [settleOnce, ho]
          · simp only [step]
            split
            · exact hinv.2.1.mp (by assumption)
            · cases ho : s.outcome <;> simp [settleOnce, ho]
        exact foldl_inv reqId (fun s2 e2 h2 => step_isSome_mono reqId s2 e2 h2)
          tl _ hsome

/-- Claim C4: an inbound message settles the call exactly when its parsed
correlation id equals the request id. A malformed frame, or a frame with a
different id, leaves the call state (outcome, settled flag, pending timer —
everything) unchanged; a matching frame on an unsettled call always settles
it; and a trace whose messages never match, with no transport error, can
only end unsettled or in the timeout or closed failure — never a resolve —
and is certainly settled once the timer fired or the connection closed. -/
theorem correlation_id_acceptance (reqId : String) :
    (∀ s msg, ¬ msg.id = reqId → step reqId s (.message (some msg)) = s) ∧
    (∀ s, step reqId s (.message none) = s) ∧
    (∀ s msg, msg.id = reqId → s.outcome = none →
        (step reqId s (.message (some msg))).settled = true ∧
        ∃ v, (step reqId s (.message (some msg))).outcome = some v) ∧
    (∀ tr, (∀ msg, WsEvent.message (some msg) ∈ tr → ¬ msg.id = reqId) →
        (∀ e, WsEvent.connError e ∉ tr) →
        ((run reqId tr).outcome = none ∨
         (run reqId tr).outcome = some (.error .timeout) ∨
         (run reqId tr).outcome = some (.error .closed)) ∧
        ((WsEvent.timerFire ∈ tr ∨ WsEvent.connClose ∈ tr) →
          ((run reqId tr).outcome = some (.error .timeout) ∨
           (run reqId tr).outcome = some (.error .closed)))) := by
  refine ⟨?_, ?_, ?_, ?_⟩
  · intro s msg hne
    simp [step, hne]
  · intro s; rfl
  · intro s msg hid hout
    constructor
    · simp only [step, hid]
      split
      · simp_all
      · split <;> rfl
    · simp only [step, hid]
      split
      · simp_all
      · split
        · exact ⟨.ok (normalizeMsg msg), by simp [settleOnce, hout]⟩
        · exact ⟨.error (.tool (toolErrText msg.error)), by simp [settleOnce, hout]⟩
  · intro tr hmatch herr
    have h1 := run_no_match_outcomes reqId tr initState hmatch herr (Or.inl rfl)
    refine ⟨h1, fun htrig => ?_⟩
    have h2 := run_trigger_settles reqId tr initState callInv_init htrig
    rcases h1 with h | h | h
    · rw [h] at h2; cases h2
    · exact Or.inl h
    · exact Or.inr h

theorem correlation_id_acceptance_witness :
    step "w4" initState (.message (some msgWrongId)) = initState ∧
    ((run "w4" [.message (some msgWrongId), .timerFire]).outcome
        = some (.error .timeout) ∨
      (run "w4" [.message (some msgWrongId), .timerFire]).outcome
        = some (.error .closed)) := by
  have h := correlation_id_acceptance "w4"
  refine ⟨h.1 initState msgWrongId (by decide), ?_⟩
  have h4 := h.2.2.2 [.message (some msgWrongId), .timerFire] ?_ ?_
  · exact h4.2 (Or.inl (by simp))
  · intro msg hm
    rcases List.mem_cons.mp hm with h2 | h2
    · cases h2; decide
    · simp at h2
  · intro e he
    rcases List.mem_cons.mp he with h2 | h2 <;> simp_all

/-- Every normalized coverage is a number. -/
theorem normalizeMsg_coverage_num (msg : RawMsg) :
    ∃ q : ℚ, (normalizeMsg msg).coverage = .num q := by
  rcases hc : msg.coverage with _ | v
  · exact ⟨1, by simp [normalizeMsg, hc]⟩
  · cases v with
    | num q => exact ⟨q, by simp [normalizeMsg, hc]⟩
    | null => exact ⟨1, by simp [normalizeMsg, hc]⟩
    | bool b => exact ⟨1, by simp [normalizeMsg, hc]⟩
    | str s2 => exact ⟨1, by simp [normalizeMsg, hc]⟩
    | arr xs => exact ⟨1, by simp [normalizeMsg, hc]⟩

/-- Claim C6: a matching response with success flag true resolves with the
defensively normalized result: an absent or non-array assignments field
becomes the empty array and an array is passed through unchanged; likewise
for categories; a non-numeric (or absent) coverage becomes exactly 1 and a
numeric one is passed through unchanged. -/
theorem success_normalization (reqId : String) (s : CallState) (msg : RawMsg)
    (hid : msg.id = reqId) (hok : msg.ok = true) (hout : s.outcome = none) :
    (step reqId s (.message (some msg))).outcome = some (.ok (normalizeMsg msg)) ∧
    ((∀ xs, ¬ msg.assignments = some (.arr xs)) →
      (normalizeMsg msg).assignments = .arr []) ∧
    (∀ xs, msg.assignments = some (.arr xs) →
      (normalizeMsg msg).assignments = .arr xs) ∧
    ((∀ xs, ¬ msg.categories = some (.arr xs)) →
      (normalizeMsg msg).categories = .arr []) ∧
    (∀ xs, msg.categories = some (.arr xs) →
      (normalizeMsg msg).categories = .arr xs) ∧
    ((∀ q : ℚ, ¬ msg.coverage = some (.num q)) →
      (normalizeMsg msg).coverage = .num 1) ∧
    (∀ q : ℚ, msg.coverage = some (.num q) →
      (normalizeMsg msg).coverage = .num q) := by
  refine ⟨?_, ?_, ?_, ?_, ?_, ?_, ?_⟩
  · simp [step, hid, hok, settleOnce, hout]
  · intro hne
    rcases ha : msg.assignments with _ | v
    · simp [normalizeMsg, ha]
    · cases v with
      | arr xs => exact absurd ha (hne xs)
      | null => simp [normalizeMsg, ha]
      | bool b => simp [normalizeMsg, ha]
      | num q => simp [normalizeMsg, ha]
      | str s2 => simp [normalizeMsg, ha]
  · intro xs hxs; simp [normalizeMsg, hxs]
  · intro hne
    rcases ha : msg.categories with _ | v
    · simp [normalizeMsg, ha]
    · cases v with
      | arr xs => exact absurd ha (hne xs)
      | null => simp [normalizeMsg, ha]
      | bool b => simp [normalizeMsg, ha]
      | num q => simp [normalizeMsg, ha]
      | str s2 => simp [normalizeMsg, ha]
  · intro xs hxs; simp [normalizeMsg, hxs]
  · intro hne
    rcases hc : msg.coverage with _ | v
    · simp [normalizeMsg, hc]
    · cases v with
      | num q => exact absurd hc (hne q)
      | null => simp [normalizeMsg, hc]
      | bool b => simp [normalizeMsg, hc]
      | str s2 => simp [normalizeMsg, hc]
      | arr xs => simp [normalizeMsg, hc]
  · intro q hq; simp [normalizeMsg, hq]

theorem success_normalization_witness :
    (step "w6" initState (.message (some msgC6))).outcome
        = some (.ok (normalizeMsg msgC6)) ∧
    (normalizeMsg msgC6).assignments = .arr [] ∧
    (normalizeMsg msgC6).categories = .arr [] ∧
    (normalizeMsg msgC6).coverage = .num (4 / 5) := by
  have h := success_normalization "w6" initState msgC6 rfl rfl rfl
  exact ⟨h.1, h.2.1 (fun xs => by simp [msgC6]),
    h.2.2.2.1 (fun xs => by simp [msgC6]), h.2.2.2.2.2.2 (4 / 5) rfl⟩

/-- Claim C10: whenever the call resolves (matching message, success flag
true), the surfaced coverage of the final handler response is a number,
never the null branch — the client has already normalized any non-numeric
coverage to 1. -/
theorem success_coverage_is_number (reqId : String) (s : CallState)
    (msg : RawMsg) (hid : msg.id = reqId) (hok : msg.ok = true)
    (hout : s.outcome = none) (list : List FilteredRecord)
    (hne : ¬ list.length = 0) :
    (step reqId s (.message (some msg))).outcome = some (.ok (normalizeMsg msg)) ∧
    ¬ (processUpload list (normalizeMsg msg)).response.coverage = none ∧
    ∃ q : ℚ, (processUpload list (normalizeMsg msg)).response.coverage = some q := by
  obtain ⟨q, hq⟩ := normalizeMsg_coverage_num msg
  have hcov : (processUpload list (normalizeMsg msg)).response.coverage = some q := by
    simp [processUpload, hne, hq]
  refine ⟨?_, by simp [hcov], ⟨q, hcov⟩⟩
  simp [step, hid, hok, settleOnce, hout]

theorem success_coverage_is_number_witness :
    (step "w10" initState (.message (some msgOk10))).outcome
        = some (.ok (normalizeMsg msgOk10)) ∧
    ∃ q : ℚ, (processUpload [recA] (normalizeMsg msgOk10)).response.coverage = some q := by
  have h := success_coverage_is_number "w10" initState msgOk10 rfl rfl rfl [recA] (by simp)
  exact ⟨h.1, h.2.2⟩

/-- Claim C1 counterexample: with 501 candidates and the cap of 500, the
handler builds a row for every candidate — `list.map`, not the capped
slice — so 501 rows are produced and `processed` surfaces 501, not
min(501, 500) = 500. -/
theorem rows_not_capped :
    (processUpload longList mcpTrivial).insertedRows.length = 501 ∧
    (processUpload longList mcpTrivial).response.processed = 501 ∧
    ¬ (processUpload longList mcpTrivial).insertedRows.length
        = min longList.length MAX_ITEMS := by
  have hlen : longList.length = 501 := by
    rw [longList]; exact List.length_replicate _ _
  have hne : ¬ longList.length = 0 := by simp [hlen]
  have h1 : (processUpload longList mcpTrivial).insertedRows.length = 501 := by
    simp [processUpload, hne, mkRows_length, hlen]
  refine ⟨h1, ?_, ?_⟩
  · simp [processUpload, hne, mkRows_length, hlen]
  · rw [h1, hlen]
    decide

/-- Claim C1 amended: for every nonempty candidate list of length N the
handler produces exactly N persistence rows — one per original record,
including the records at positions at or beyond the cap, which receive the
fallback category whenever the assignments array does not reach their
position — and the surfaced `processed` count equals N, the full candidate
count, even when the request items were truncated. -/
theorem rows_one_per_record (list : List FilteredRecord) (mcp : McpResolved)
    (hne : ¬ list.length = 0) :
    (processUpload list mcp).insertedRows.length = list.length ∧
    (processUpload list mcp).response.processed = list.length ∧
    ∀ k, k < list.length →
      (processUpload list mcp).insertedRows.get? k =
        (list.get? k).map (fun r =>
          { filtered_id := r.id
          , category := rowCategory mcp.assignments k
          , confidence := 9 / 10 }) := by
  have hrows : (processUpload list mcp).insertedRows = mkRows list mcp.assignments := by
    simp [processUpload, hne]
  refine ⟨?_, ?_, ?_⟩
  · rw [hrows, mkRows_length]
  · simp [processUpload, hne, mkRows_length]
  · intro k _
    rw [hrows]
    exact mkRows_get? list mcp.assignments k

theorem rows_one_per_record_witness :
    (processUpload [recA, recB] mcpTrivial).insertedRows.length
        = ([recA, recB] : List _).length ∧
    (processUpload [recA, recB] mcpTrivial).insertedRows.get? 1 =
      some { filtered_id := recB.id, category := .str "Other",
             confidence := 9 / 10 } := by
  have h := rows_one_per_record [recA, recB] mcpTrivial (by simp)
  refine ⟨h.1, ?_⟩
  have h3 := h.2.2 1 (by simp)
  rw [h3]
  simp [mcpTrivial, rowCategory, JVal.index]

/-- Indexing a normalized string-array of assignments: the entry when it is
present and non-empty, else the sentinel. -/
theorem rowCategory_str_list (xs : List String) (i : Nat) :
    rowCategory (JVal.arr (xs.map JVal.str)) i =
      match xs.get? i with
      | some s => if s = "" then JVal.str "Other" else JVal.str s
      | none => JVal.str "Other" := by
  simp only [rowCategory, JVal.index, List.get?_eq_getElem?, List.getElem?_map]
  rcases h : xs[i]? with _ | s
  · rfl
  · by_cases hs : s = "" <;> simp [JVal.truthy, hs]

/-- Claim C7: for the candidate record at capped position i, the persisted
row carries that record's id, category assignments[i] when that entry is
present and non-empty and the sentinel "Other" otherwise, and the fixed
confidence 0.9; in particular with an empty assignments array (the
normalization of a response with no assignments field) every row falls back
to "Other". -/
theorem capped_row_category (list : List FilteredRecord) (xs : List String)
    (mcp : McpResolved) (ha : mcp.assignments = JVal.arr (xs.map JVal.str))
    (i : Nat) (hi : i < min list.length MAX_ITEMS) :
    (processUpload list mcp).insertedRows.get? i =
      (list.get? i).map (fun r =>
        { filtered_id := r.id
        , category := match xs.get? i with
            | some s => if s = "" then JVal.str "Other" else JVal.str s
            | none => JVal.str "Other"
        , confidence := 9 / 10 }) ∧
    (xs = [] → ∀ k r, list.get? k = some r →
      (processUpload list mcp).insertedRows.get? k =
        some { filtered_id := r.id, category := JVal.str "Other",
               confidence := 9 / 10 }) := by
  have hilen : i < list.length := lt_of_lt_of_le hi (Nat.min_le_left _ _)
  have hne : ¬ list.length = 0 := by
    intro h0
    rw [h0] at hilen
    exact Nat.not_lt_zero i hilen
  have hrows : (processUpload list mcp).insertedRows = mkRows list mcp.assignments := by
    simp [processUpload, hne]
  constructor
  · rw [hrows, mkRows_get? list mcp.assignments i, ha, rowCategory_str_list]
  · intro hxs k r hk
    rw [hrows, mkRows_get? list mcp.assignments k, hk, ha, hxs]
    simp [rowCategory, JVal.index]

theorem capped_row_category_witness :
    (processUpload [recA, recB, recC] mcpAB).insertedRows.get? 0 =
      some { filtered_id := recA.id, category := JVal.str "A",
             confidence := 9 / 10 } ∧
    (processUpload [recA, recB, recC] mcpAB).insertedRows.get? 1 =
      some { filtered_id := recB.id, category := JVal.str "Other",
             confidence := 9 / 10 } := by
  have h0 := capped_row_category [recA, recB, recC] ["A", ""] mcpAB rfl 0 (by decide)
  have h1 := capped_row_category [recA, recB, recC] ["A", ""] mcpAB rfl 1 (by decide)
  constructor
  · rw [h0.1]; rfl
  · rw [h1.1]; rfl
